import Mathlib

/-!
Verification of the formsmd document compiler.

This file gives a shallow embedding, in Lean, of the parts of the formsmd
repository that the specification talks about, and proves (or refutes) the
specified properties against that embedding.

Sources embedded:
* `src/end-slide-template.js` / `src/welcome-screen-template.js`
  (`createWelcomeScreen`, `createEndSlide`).
* `src/main.js` (`getCurrentFormData`).
* `src/templates-create.js` (`createContentTemplate` stage ordering).
* Components whose implementation files are absent from the provided sources
  (phone-numbers, marked-renderer, attrs-parse, form-field-create,
  slides-parse) are modelled from the specification, as noted on each
  definition.

JavaScript conventions used throughout the embedding: a possibly-absent
string-valued property is `Option String`, and JavaScript truthiness of such
a value means "is `some s` with `s` non-empty".
-/

/-- JavaScript truthiness for an optional string value: `none` models
`undefined`/`null`, and the empty string is falsy. -/
def truthyStr : Option String → Bool
  | some s => !(s == "")
  | none => false

/-- The JavaScript idiom `a || b` for an optional string `a` and a fallback
string `b`: the fallback is taken when `a` is absent or empty. -/
def orElseStr (a : Option String) (b : String) : String :=
  match a with
  | some s => if s == "" then b else s
  | none => b

/-- The JavaScript idiom `a || b || c` chaining two string fallbacks. -/
def orElseStr2 (a : Option String) (b : String) (c : String) : String :=
  let ab := orElseStr a b
  if ab == "" then c else ab

/-! ## Welcome screen and end slide (`part_001`:
`welcome-screen-template.js` and `end-slide-template.js`) -/

/-- The list `validAlignments` of `createWelcomeScreen`/`createEndSlide`. -/
def validAlignments : List String := ["left", "center", "right"]

/-- The alignment resolution performed (identically, by textually duplicated
code) at the top of both `createWelcomeScreen` and `createEndSlide`:
`let alignment = config.alignment || "center"` followed by the
`validAlignments.includes(alignment)` check that falls back to `"center"`. -/
def resolveAlignment (alignment : Option String) : String :=
  let a := orElseStr alignment "center"
  if validAlignments.contains a then a else "center"

/-- Configuration object accepted by `createWelcomeScreen`. -/
structure WelcomeConfig where
  title : Option String
  content : Option String
  buttonText : Option String
  alignment : Option String

/-- Structured form of the welcome-screen markup produced by rendering
`welcomeScreenTemplate` with Nunjucks: the template interpolates
`alignment` into the wrapper style, shows title/content when non-empty, and
shows the start button exactly when `buttonText` is non-empty. -/
structure WelcomeScreen where
  alignment : String
  title : String
  content : String
  buttonText : String
  buttonShown : Bool
deriving DecidableEq

/-- `createWelcomeScreen` from `welcome-screen-template.js`. The collaborator
`getTranslation localization` is abstracted as the function `tr`. -/
def createWelcomeScreen (tr : String → String) (config : WelcomeConfig) :
    WelcomeScreen :=
  let alignment := resolveAlignment config.alignment
  let buttonText := orElseStr config.buttonText (tr "start-survey-btn")
  { alignment := alignment
    title := orElseStr config.title ""
    content := orElseStr config.content ""
    buttonText := buttonText
    buttonShown := !(buttonText == "") }

/-- Configuration object accepted by `createEndSlide`. -/
structure EndSlideConfig where
  title : Option String
  content : Option String
  buttonText : Option String
  alignment : Option String
  redirectUrl : Option String
  redirectDelay : Option Nat

/-- Structured form of the end-slide markup produced by rendering
`endSlideTemplate` with Nunjucks. The template shows the CTA button under
`buttonText and not redirectUrl`, and the redirect message under
`redirectUrl`. -/
structure EndSlide where
  alignment : String
  title : String
  content : String
  buttonShown : Bool
  buttonText : String
  redirectShown : Bool
  redirectMessage : String
deriving DecidableEq

/-- `createEndSlide` from `end-slide-template.js`. `getTranslation
localization` is abstracted as `tr` (returning `""` for a missing
translation, which is falsy in the JavaScript `||` chains). -/
def createEndSlide (tr : String → String) (config : EndSlideConfig) :
    EndSlide :=
  let alignment := resolveAlignment config.alignment
  let redirectUrl := orElseStr config.redirectUrl ""
  let delay := (match config.redirectDelay with
    | some d => if d == 0 then 3000 else d
    | none => 3000)
  let redirectMessage :=
    if !(redirectUrl == "") then
      (if tr "redirecting-message" == "" then
        "Redirecting in " ++ Nat.repr (delay / 1000) ++ " seconds..."
      else tr "redirecting-message")
    else ""
  let buttonText :=
    if !(redirectUrl == "") then ""
    else orElseStr2 config.buttonText (tr "create-survey-btn") "Create a Survey"
  { alignment := alignment
    title := orElseStr config.title (tr "form-submitted-title")
    content := orElseStr config.content (tr "form-submitted-subtitle")
    buttonShown := !(buttonText == "") && (redirectUrl == "")
    buttonText := buttonText
    redirectShown := !(redirectUrl == "")
    redirectMessage := redirectMessage }

/-! ## `getCurrentFormData` (`part_002`: `main.js`) -/

/-- A DOM element inside the active slide, reduced to the one attribute
`getCurrentFormData` queries: `data-fmd-name` (present with a value, or
absent). -/
structure SlideElement where
  dataFmdName : Option String
deriving DecidableEq

/-- The active slide, as the ordered list of its descendant elements;
`querySelector "[data-fmd-name]"` is the first element carrying that
attribute. -/
structure ActiveSlide where
  elements : List SlideElement

/-- The `originalQuestion` object from the API, reduced to the fields that
`getCurrentFormData` reads. -/
structure OriginalQuestion where
  questionId : Option String

/-- The form-data object built by `getCurrentFormData`. -/
structure FormDataOut where
  questionId : String
  value : String
  timeSpent : Nat
deriving DecidableEq

/-- `activeSlide.querySelector("[data-fmd-name]")` followed by
`getAttribute("data-fmd-name")`. -/
def querySelectorFmdName (slide : ActiveSlide) : Option String :=
  match slide.elements.find? (fun e => e.dataFmdName.isSome) with
  | some e => e.dataFmdName
  | none => none

/-- `getCurrentFormData` from `main.js`. The value extraction
(`extractValueByQuestionType`, which depends on the question type and
configuration) is abstracted as `extract`, and the randomly generated
`timeSpent` as the parameter `timeSpent`. -/
def getCurrentFormData (extract : String → String) (timeSpent : Nat)
    (activeSlide : ActiveSlide) (originalQuestion : Option OriginalQuestion) :
    Option FormDataOut :=
  let qidFromOrig : Option String :=
    match originalQuestion with
    | some q => if truthyStr q.questionId then q.questionId else none
    | none => none
  match qidFromOrig with
  | some qid =>
      some { questionId := qid, value := extract qid, timeSpent := timeSpent }
  | none =>
      match querySelectorFmdName activeSlide with
      | none => none
      | some qid =>
          some { questionId := qid, value := extract qid, timeSpent := timeSpent }

/-! ## `createContentTemplate` stage ordering (`src/templates-create.js`) -/

/-- A template value tagged with the transformations `createContentTemplate`
has applied to it, innermost first. Each constructor corresponds to one
processing step of `templates-create.js`: `parseDivs`, `parseBindSpans`,
`parseSlides` (carrying the `form-slides` flag), the single-page wrapper,
the Nunjucks data render, and the `<markdown>` section parse done with
Marked (the block/field rendering stage). -/
inductive Tpl where
  | source : String → Tpl
  | divsParsed : Tpl → Tpl
  | bindSpansParsed : Tpl → Tpl
  | slidesParsed : Bool → Tpl → Tpl
  | singleWrapped : Tpl → Tpl
  | nunjucksRendered : Tpl → Tpl
  | markdownParsed : Tpl → Tpl
deriving DecidableEq

/-- The processing order of `createContentTemplate` (lines 307-367 of
`templates-create.js`): parse `<div>` elements, parse bind `<span>`
elements, then (for any page setting other than `"single"`) `parseSlides`,
then the Nunjucks render, then the Marked parse of the
`<markdown>...</markdown>` sections. -/
def createContentTemplate (template : String) (page : String) : Tpl :=
  let t1 := Tpl.divsParsed (Tpl.source template)
  let t2 := Tpl.bindSpansParsed t1
  let t3 :=
    if page == "single" then Tpl.singleWrapped t2
    else Tpl.slidesParsed (page == "form-slides") t2
  Tpl.markdownParsed (Tpl.nunjucksRendered t3)

/-- Whether the Marked block/field rendering step occurs anywhere inside a
tagged template value. -/
def Tpl.hasMarkdownParsed : Tpl → Bool
  | Tpl.source _ => false
  | Tpl.divsParsed t => t.hasMarkdownParsed
  | Tpl.bindSpansParsed t => t.hasMarkdownParsed
  | Tpl.slidesParsed _ t => t.hasMarkdownParsed
  | Tpl.singleWrapped t => t.hasMarkdownParsed
  | Tpl.nunjucksRendered t => t.hasMarkdownParsed
  | Tpl.markdownParsed _ => true

/-- The template value that `parseSlides` was applied to, if slide
segmentation occurred anywhere in the pipeline (innermost occurrence). -/
def Tpl.slidesArg : Tpl → Option Tpl
  | Tpl.source _ => none
  | Tpl.divsParsed t => t.slidesArg
  | Tpl.bindSpansParsed t => t.slidesArg
  | Tpl.slidesParsed _ t =>
      match t.slidesArg with
      | some u => some u
      | none => some t
  | Tpl.singleWrapped t => t.slidesArg
  | Tpl.nunjucksRendered t => t.slidesArg
  | Tpl.markdownParsed t => t.slidesArg

/-! ## Checkbox list items (modelled: `marked-renderer.js` is absent) -/

/-- The ARIA checkbox indicator that replaces a literal `[ ]`/`[x]`/`[X]`
token at the start of a list item. -/
structure ListCheckbox where
  checked : Bool
  ariaChecked : String
  ariaLabel : String
deriving DecidableEq

/-- A rendered list item: an optional checkbox indicator followed by the
item content. -/
structure RenderedListItem where
  checkbox : Option ListCheckbox
  content : List Char
deriving DecidableEq

/-- Drop leading whitespace from a character list. -/
def trimLeftChars (cs : List Char) : List Char :=
  cs.dropWhile (fun c => c.isWhitespace)

/-- Trim whitespace from both ends of a character list. -/
def trimChars (cs : List Char) : List Char :=
  ((cs.dropWhile (fun c => c.isWhitespace)).reverse.dropWhile
    (fun c => c.isWhitespace)).reverse

/-- Modelled from the spec: the list-item clause of the block renderer
augmentation (`marked-renderer.js`, absent from the sources). A list item
whose text begins with `[ ]` or `[x]`/`[X]` has the literal token removed
and replaced by an ARIA checkbox indicator carrying the checked state,
`aria-checked`, and an `aria-label`; the labels `"Checked"`/`"Not
checked"` are those of the golden outputs in `tests/renderer.test.js`. -/
def renderListItemChars : List Char → RenderedListItem
  | '[' :: ' ' :: ']' :: rest =>
      { checkbox := some
          { checked := false, ariaChecked := "false", ariaLabel := "Not checked" }
        content := trimLeftChars rest }
  | '[' :: 'x' :: ']' :: rest =>
      { checkbox := some
          { checked := true, ariaChecked := "true", ariaLabel := "Checked" }
        content := trimLeftChars rest }
  | '[' :: 'X' :: ']' :: rest =>
      { checkbox := some
          { checked := true, ariaChecked := "true", ariaLabel := "Checked" }
        content := trimLeftChars rest }
  | cs => { checkbox := none, content := cs }

/-- String-level wrapper for the list-item renderer. -/
def renderListItem (text : String) : RenderedListItem :=
  renderListItemChars text.data

/-! ## Slide segmentation (modelled: `slides-parse.js` is absent) -/

/-- The scanner state of slide segmentation: the code-fence depth and the
block-construct (field/data block) depth. -/
structure SlideScanState where
  fenceDepth : Nat
  blockDepth : Nat
deriving DecidableEq

/-- Whether a line opens or closes a fenced code block (` ``` ` or `~~~`
fence markers, leading indentation tolerated). -/
def isFenceLine (line : String) : Bool :=
  (trimLeftChars line.data).take 3 == ['`', '`', '`'] ||
  (trimLeftChars line.data).take 3 == ['~', '~', '~']

/-- Whether a line opens a block construct (a field or data block: its
trimmed form ends with `(`). -/
def opensBlockConstruct (line : String) : Bool :=
  match (trimChars line.data).reverse with
  | '(' :: _ => true
  | _ => false

/-- Whether a line closes a block construct (its trimmed form is `)`). -/
def closesBlockConstruct (line : String) : Bool :=
  trimChars line.data == [')']

/-- Modelled from the spec: one step of the line-by-line scan of
`parseSlides` (`slides-parse.js`, absent from the sources), tracking fence
depth and block-construct depth. -/
def scanStep (st : SlideScanState) (line : String) : SlideScanState :=
  if isFenceLine line then
    { st with fenceDepth := if st.fenceDepth == 0 then 1 else 0 }
  else if st.fenceDepth == 0 then
    if opensBlockConstruct line then
      { st with blockDepth := st.blockDepth + 1 }
    else if closesBlockConstruct line && !(st.blockDepth == 0) then
      { st with blockDepth := st.blockDepth - 1 }
    else st
  else st

/-- Whether a line is a slide-delimiter line for the configured delimiter. -/
def isDelimiterLine (delim : String) (line : String) : Bool :=
  trimChars line.data == delim.data

/-- A delimiter line is a split point only at depth zero in both counters. -/
def isSplitPoint (delim : String) (st : SlideScanState) (line : String) : Bool :=
  isDelimiterLine delim line && st.fenceDepth == 0 && st.blockDepth == 0

/-- Modelled from the spec: the segmentation loop of `parseSlides`, returning
the list of slide segments (each a list of lines). -/
def parseSlidesAux (delim : String) :
    SlideScanState → List String → List String → List (List String)
  | _, cur, [] => [cur.reverse]
  | st, cur, l :: ls =>
      if isSplitPoint delim st l then
        cur.reverse :: parseSlidesAux delim (scanStep st l) [] ls
      else
        parseSlidesAux delim (scanStep st l) (l :: cur) ls

/-- Modelled from the spec: `parseSlides` segmentation over the lines of the
rendered-template text. -/
def parseSlides (delim : String) (lines : List String) : List (List String) :=
  parseSlidesAux delim { fenceDepth := 0, blockDepth := 0 } [] lines

/-- The indices of the lines at which `parseSlidesAux` produces a slide
boundary, with `i` the index of the first line of the remaining input. -/
def splitIndicesAux (delim : String) :
    SlideScanState → Nat → List String → List Nat
  | _, _, [] => []
  | st, i, l :: ls =>
      if isSplitPoint delim st l then
        i :: splitIndicesAux delim (scanStep st l) (i + 1) ls
      else
        splitIndicesAux delim (scanStep st l) (i + 1) ls

/-- The indices of the slide boundaries produced for a document. -/
def splitIndices (delim : String) (lines : List String) : List Nat :=
  splitIndicesAux delim { fenceDepth := 0, blockDepth := 0 } 0 lines

/-- The scanner state reached just before processing line `i`. -/
def stateAt (lines : List String) (i : Nat) : SlideScanState :=
  (lines.take i).foldl scanStep { fenceDepth := 0, blockDepth := 0 }

/-! ## Country calling code options (modelled: `phone-numbers.js` is absent) -/

/-- Uppercase normalization of a code, character by character (the
JavaScript `toUpperCase()` on ASCII codes). -/
def strToUpper (s : String) : String := String.mk (s.data.map Char.toUpper)

/-- One `<option>` of the country calling code `<select>`. -/
structure CountryCallingCodeOption where
  isoCode : String
  callingCode : String
  placeholderExample : String
  selected : Bool
deriving DecidableEq

/-- Modelled from the spec: the static country calling code registry of
`phone-numbers.js` (absent from the sources), in its fixed canonical order,
restricted to the entries evidenced by
`tests/createCountryCallingCodeOptions.test.js`. Each entry is
`(isoCode, callingCode, placeholderExample)`. -/
def countryCallingCodeRegistry : List (String × String × String) :=
  [("BD", "+880", "1812-345678"),
   ("GB", "+44", "07400 123456"),
   ("SG", "+65", "8123 4567"),
   ("US", "+1", "(201) 555-0123")]

/-- Registry lookup by (already uppercased) ISO code. -/
def registryLookup (code : String) : Option (String × String × String) :=
  countryCallingCodeRegistry.find? (fun e => e.1 == code)

/-- Build one option from a registry entry and a selection flag. -/
def mkCallingCodeOption (sel : Bool) (e : String × String × String) :
    CountryCallingCodeOption :=
  { isoCode := e.1, callingCode := e.2.1, placeholderExample := e.2.2
    selected := sel }

/-- Order-preserving duplicate removal keeping the first occurrence. -/
def dedupKeepFirst : List String → List String
  | [] => []
  | x :: xs => x :: (dedupKeepFirst xs).filter (fun y => !(y == x))

/-- Modelled from the spec: `createCountryCallingCodeOptions` of
`phone-numbers.js` (absent from the sources). Empty restriction: the whole
registry in canonical order with the selected code (if present) marked. A
non-empty restriction is normalized to uppercase with duplicates removed
and order preserved; if the normalized selected code is in that set, the
set is returned as is, otherwise the selected code registry entry comes
first. Unknown codes fall out via the registry lookup (registry-miss is
"not found", not an error). -/
def createCountryCallingCodeOptions (selectedCode : String)
    (restriction : List String) : List CountryCallingCodeOption :=
  let sel := strToUpper selectedCode
  if restriction.isEmpty then
    countryCallingCodeRegistry.map (fun e => mkCallingCodeOption (e.1 == sel) e)
  else
    let rSet := dedupKeepFirst (restriction.map strToUpper)
    let opts := rSet.filterMap
      (fun c => (registryLookup c).map (mkCallingCodeOption (c == sel)))
    if rSet.contains sel then opts
    else
      match registryLookup sel with
      | some e => mkCallingCodeOption true e :: opts
      | none => opts

/-! ## Heading slugs (modelled: `marked-renderer.js` is absent) -/

/-- The decimal digit list of a number, least significant first (empty for
zero), with explicit fuel (structural recursion, exact for fuel at least
the number). -/
def natDecimalDigitsRevAux : Nat → Nat → List Nat
  | _, 0 => []
  | 0, _ + 1 => []
  | f + 1, m + 1 => ((m + 1) % 10) :: natDecimalDigitsRevAux f ((m + 1) / 10)

/-- The decimal digits of a number, least significant first (empty for
zero). -/
def natDecimalDigitsRev (n : Nat) : List Nat := natDecimalDigitsRevAux n n

/-- The numeric value of a least-significant-first decimal digit list. -/
def digitsRevVal : List Nat → Nat
  | [] => 0
  | d :: ds => d + 10 * digitsRevVal ds

/-- A decimal digit as a character. -/
def decimalDigitChar (d : Nat) : Char := Char.ofNat (48 + d)

/-- Decimal rendering of a natural number as a character list. -/
def natDecimalRepr (n : Nat) : List Char :=
  if n = 0 then ['0']
  else ((natDecimalDigitsRev n).reverse).map decimalDigitChar

/-- The slug produced for the `k`-th collision of `base`: the numeric
counter appended after a hyphen. -/
def counterSlug (base : String) (k : Nat) : String :=
  base ++ "-" ++ String.mk (natDecimalRepr k)

/-- Modelled from the spec: collision handling of the heading slugger. If
`base` is unused it is taken as is; otherwise the smallest numeric counter
`k ≥ 1` making `base-k` unused is appended (the search range
`used.length + 1` always suffices, see `freshSlug_not_mem`). -/
def freshSlug (used : List String) (base : String) : String :=
  if base ∈ used then
    match ((List.range (used.length + 1)).map
        (fun k => counterSlug base (k + 1))).find?
        (fun c => !(decide (c ∈ used))) with
    | some c => c
    | none => base
  else base

/-- Remove `<...>` tag spans from a character list; the `Bool` argument is
the "inside a tag" scanner state. -/
def stripTagsAux : Bool → List Char → List Char
  | _, [] => []
  | true, c :: cs =>
      if c == '>' then stripTagsAux false cs else stripTagsAux true cs
  | false, c :: cs =>
      if c == '<' then stripTagsAux true cs else c :: stripTagsAux false cs

/-- Collapse runs of hyphens to a single hyphen. -/
def squashHyphens : List Char → List Char
  | [] => []
  | c :: cs =>
      let r := squashHyphens cs
      if c == '-' then
        match r with
        | '-' :: _ => r
        | _ => '-' :: r
      else c :: r

/-- Drop hyphens from both ends. -/
def trimHyphens (cs : List Char) : List Char :=
  ((cs.dropWhile (fun c => c == '-')).reverse.dropWhile
    (fun c => c == '-')).reverse

/-- Modelled from the spec: heading slug generation of
`marked-renderer.js` (absent from the sources). Tags are stripped, the
text is lowercased, runs of non-alphanumeric characters collapse to single
hyphens, and hyphens are trimmed from both ends. -/
def slugify (s : String) : String :=
  String.mk (trimHyphens (squashHyphens
    ((stripTagsAux false s.data).map
      (fun c => if c.isAlphanum then c.toLower else '-'))))

/-! ## Attribute blocks (modelled: `attrs-parse.js` is absent) -/

/-- A parsed `[ ... ]` attribute block annotation. -/
structure AttributeBlock where
  idAttr : Option String
  classes : List String
  attributes : List (String × String)
deriving DecidableEq

/-- The empty attribute block. -/
def emptyAttributeBlock : AttributeBlock :=
  { idAttr := none, classes := [], attributes := [] }

/-- The double-quote character. -/
def dquoteChar : Char := Char.ofNat 34

/-- The single-quote character. -/
def squoteChar : Char := Char.ofNat 39

/-- A character that may occur inside a `#id` or `.class` token. -/
def isTokenChar (c : Char) : Bool := !c.isWhitespace && !(c == ']')

/-- A character that may occur inside an attribute key. -/
def isKeyChar (c : Char) : Bool :=
  !c.isWhitespace && !(c == ']') && !(c == '=')

/-- Modelled from the spec: the token loop of the attribute block grammar
(`attrs-parse.js`, absent from the sources), applied after the opening
`[`. Whitespace between tokens is skipped; `#token` sets the id (last
occurrence wins), `.token` appends a class, `key="value"`/`key='value'`
appends an attribute whose value runs to the matching quote; the closing
`]` returns the block with the rest of the input; an unterminated block is
no match. -/
def parseAttrTokensAux : List Char → AttributeBlock →
    Option (AttributeBlock × List Char)
  | [], _ => none
  | c :: rest, ab =>
    if c == ']' then some (ab, rest)
    else if c.isWhitespace then parseAttrTokensAux rest ab
    else if c == '#' then
      parseAttrTokensAux (rest.dropWhile isTokenChar)
        { ab with idAttr := some (String.mk (rest.takeWhile isTokenChar)) }
    else if c == '.' then
      parseAttrTokensAux (rest.dropWhile isTokenChar)
        { ab with classes :=
            ab.classes ++ [String.mk (rest.takeWhile isTokenChar)] }
    else
      let key := String.mk ((c :: rest).takeWhile isKeyChar)
      match h1 : (c :: rest).dropWhile isKeyChar with
      | '=' :: q :: vrest =>
        if q == dquoteChar || q == squoteChar then
          match h2 : vrest.dropWhile (fun x => !(x == q)) with
          | _ :: rest3 =>
            parseAttrTokensAux rest3
              { ab with attributes := ab.attributes ++
                  [(key, String.mk (vrest.takeWhile (fun x => !(x == q))))] }
          | [] => none
        else none
      | _ => none
termination_by cs _ => cs.length
decreasing_by
  · simp
  · have := (List.dropWhile_sublist (l := rest) isTokenChar).length_le
    simp
    omega
  · have := (List.dropWhile_sublist (l := rest) isTokenChar).length_le
    simp
    omega
  · have hd1 := (List.dropWhile_sublist (l := c :: rest) isKeyChar).length_le
    rw [h1] at hd1
    have hd2 := (List.dropWhile_sublist (l := vrest)
      (fun x => !(x == q))).length_le
    rw [h2] at hd2
    simp at hd1 hd2 ⊢
    omega

/-- Modelled from the spec: the attribute block parser entry point. Given
input starting with `[`, the matched block and the input after the
matching `]`; no match otherwise. -/
def parseAttrs (cs : List Char) : Option (AttributeBlock × List Char) :=
  match cs with
  | '[' :: rest => parseAttrTokensAux rest emptyAttributeBlock
  | _ => none

/-! ## Heading renderer (modelled: `marked-renderer.js` is absent) -/

/-- A double quote as a one-character string. -/
def dq : String := String.mk [dquoteChar]

/-- The anchor link markup appended after every heading text:
`&nbsp;<a href="#ID" class="PFXheading-anchor">#</a>`. -/
def headingAnchorHtml (pfx idAttr : String) : String :=
  "&nbsp;<a href=" ++ dq ++ "#" ++ idAttr ++ dq ++ " class=" ++ dq ++ pfx ++
    "heading-anchor" ++ dq ++ ">#</a>"

/-- A rendered heading: the wrapper id/classes/attributes and the inner
markup (rendered text followed by the generated anchor link). -/
structure RenderedHeading where
  level : Nat
  idAttr : String
  idGenerated : Bool
  classes : List String
  attributes : List (String × String)
  innerHtml : List Char
deriving DecidableEq

/-- Consume a leading attribute block from block text, if one starts it;
whitespace after the block is dropped. Without a match the text is left
untouched (an unterminated block stays plain text). -/
def consumeLeadingAttrBlock (cs : List Char) : AttributeBlock × List Char :=
  match parseAttrs cs with
  | some (ab, rest) => (ab, trimLeftChars rest)
  | none => (emptyAttributeBlock, cs)

/-- Modelled from the spec: the heading renderer of `marked-renderer.js`
(absent from the sources). A leading attribute block is consumed and
applied to the wrapper (classes get the configured class-name prefix
`pfx`); the id is the block-declared one if any, else a document-unique
slug of the text; the generated anchor link is always appended after the
text. Returns the rendered heading and the updated set of used slugs. -/
def renderHeading (pfx : String) (used : List String) (level : Nat)
    (text : String) : RenderedHeading × List String :=
  let (ab, content) := consumeLeadingAttrBlock text.data
  match ab.idAttr with
  | some i =>
      ({ level := level, idAttr := i, idGenerated := false
         classes := ab.classes.map (fun c => pfx ++ c)
         attributes := ab.attributes
         innerHtml := content ++ (headingAnchorHtml pfx i).data }, used)
  | none =>
      let slug := freshSlug used (slugify (String.mk content))
      ({ level := level, idAttr := slug, idGenerated := true
         classes := ab.classes.map (fun c => pfx ++ c)
         attributes := ab.attributes
         innerHtml := content ++ (headingAnchorHtml pfx slug).data },
       slug :: used)

/-- Render a document's headings in order, threading the used-slug set. -/
def renderHeadingsAux (pfx : String) :
    List String → List (Nat × String) → List RenderedHeading
  | _, [] => []
  | used, (lvl, t) :: ts =>
      let hu := renderHeading pfx used lvl t
      hu.1 :: renderHeadingsAux pfx hu.2 ts

/-- Render a document's headings starting from no used slugs. -/
def renderHeadings (pfx : String) (ts : List (Nat × String)) :
    List RenderedHeading :=
  renderHeadingsAux pfx [] ts

/-! ## Field descriptor parser and renderer (modelled:
`form-field-create.js` is absent) -/

/-- A character allowed in a field name. -/
def isIdentChar (c : Char) : Bool := c.isAlphanum || c == '_'

/-- Type keywords are matched case-insensitively with underscores
ignored. -/
def normalizeTypeKeyword (s : String) : String :=
  String.mk ((s.data.map Char.toLower).filter (fun c => !(c == '_')))

/-- A parsed field declaration. -/
structure FieldDescriptor where
  name : String
  required : Bool
  fieldType : String
  opts : List (String × String)
  flags : List String
deriving DecidableEq

/-- Modelled from the spec: parse the opening line of a field declaration,
`name` immediately followed (no intervening space) by an optional `*`,
then `=`, then the type keyword, then `(` ending the line. Returns the
name, the required flag and the normalized type keyword. -/
def parseFieldFirstLine (line : String) : Option (String × Bool × String) :=
  let cs := trimLeftChars line.data
  let name := cs.takeWhile isIdentChar
  if name.isEmpty then none
  else
    let rest0 := cs.dropWhile isIdentChar
    let req : Bool × List Char :=
      match rest0 with
      | '*' :: r => (true, r)
      | r => (false, r)
    match trimLeftChars req.2 with
    | '=' :: r2 =>
      let r3 := trimLeftChars r2
      let ty := r3.takeWhile (fun c => c.isAlphanum || c == '_')
      match trimLeftChars (r3.dropWhile (fun c => c.isAlphanum || c == '_')) with
      | ['('] =>
          some (String.mk name, req.1, normalizeTypeKeyword (String.mk ty))
      | _ => none
    | _ => none

/-- Modelled from the spec: parse one option line of a field declaration,
`| key = value` or bare `| key`; keys and values are trimmed. Returns the
key and the value (`none` for a bare boolean flag). -/
def parseOptionLine (line : String) : Option (String × Option String) :=
  match trimLeftChars line.data with
  | '|' :: rest =>
    let key := String.mk (trimChars (rest.takeWhile (fun c => !(c == '='))))
    match rest.dropWhile (fun c => !(c == '=')) with
    | '=' :: v => some (key, some (String.mk (trimChars v)))
    | _ => some (key, none)
  | _ => none

/-- Parse the option lines of a field declaration up to the closing `)`
line, accumulating `key = value` options and bare flags in order. -/
def parseFieldBodyAux : List String →
    Option (List (String × String) × List String)
  | [] => none
  | l :: ls =>
    if trimChars l.data == [')'] then
      if ls.isEmpty then some ([], []) else none
    else
      match parseOptionLine l with
      | some (k, some v) =>
          (parseFieldBodyAux ls).map (fun p => ((k, v) :: p.1, p.2))
      | some (k, none) =>
          (parseFieldBodyAux ls).map (fun p => (p.1, k :: p.2))
      | none => none

/-- Modelled from the spec: parse a whole field declaration given as its
lines: the opening `name* = Type(` line, the `| ...` option lines, and the
closing `)` line. -/
def parseFieldDeclaration (lines : List String) : Option FieldDescriptor :=
  match lines with
  | [] => none
  | first :: rest =>
    match parseFieldFirstLine first with
    | none => none
    | some (name, required, ty) =>
      match parseFieldBodyAux rest with
      | none => none
      | some (opts, flags) =>
          some { name := name, required := required, fieldType := ty
                 opts := opts, flags := flags }

/-- The last space-separated word of a character list. -/
def lastWordChars (cs : List Char) : List Char :=
  (cs.reverse.takeWhile (fun c => !(c == ' '))).reverse

/-- A rendered form field, structured: wrapper classes (attribute-block
classes first, prefixed, then the type class), the required marking (the
visible marker glyph and the visually hidden `(required)` suffix), and the
inner control's name, id and type. -/
structure RenderedField where
  wrapperId : Option String
  wrapperClasses : List String
  wrapperAttributes : List (String × String)
  requiredField : Bool
  labelText : String
  visibleMarkerGlyph : Bool
  visuallyHiddenText : Option String
  descriptionText : Option String
  controlName : String
  controlId : String
  controlType : String
deriving DecidableEq

/-- Look up an option value of a field descriptor. -/
def fieldOpt (d : FieldDescriptor) (key : String) : Option String :=
  match d.opts.find? (fun kv => kv.1 == key) with
  | some kv => some kv.2
  | none => none

/-- Modelled from the spec: the text-input renderer of
`form-field-create.js` (absent from the sources), restricted to the render
contract: attribute-block id/classes/attributes merge onto the wrapper
(classes prefixed with `pfx`), a required field gets a visible marker
glyph and a visually hidden `(required)` suffix after the question's last
word, the control's `name` is the field name and its `id` is
`id_` + name. The `"..."` fallback label is that of the golden outputs in
`tests/renderer.test.js`. -/
def renderTextInputField (pfx : String) (ab : AttributeBlock)
    (d : FieldDescriptor) : RenderedField :=
  let q := match fieldOpt d "question" with
    | some v => v
    | none => "..."
  { wrapperId := ab.idAttr
    wrapperClasses := ab.classes.map (fun c => pfx ++ c) ++ [pfx ++ "form-field"]
    wrapperAttributes := ab.attributes
    requiredField := d.required
    labelText := q
    visibleMarkerGlyph := d.required
    visuallyHiddenText :=
      if d.required then some (String.mk (lastWordChars q.data) ++ " (required)")
      else none
    descriptionText := fieldOpt d "description"
    controlName := d.name
    controlId := "id_" ++ d.name
    controlType := "text" }

/-! ## Helper lemmas -/

theorem resolveAlignment_mem (a : Option String) :
    resolveAlignment a ∈ validAlignments := by
  unfold resolveAlignment
  by_cases h : validAlignments.contains (orElseStr a "center") = true
  · rw [if_pos h]
    simpa using h
  · rw [if_neg h]
    decide

theorem resolveAlignment_default (s : String) (hs : s ∉ validAlignments) :
    resolveAlignment (some s) = "center" := by
  simp only [resolveAlignment, orElseStr]
  by_cases he : (s == "") = true
  · rw [if_pos he]
    decide
  · rw [if_neg he]
    have hc : ¬ validAlignments.contains s = true := by
      simpa using hs
    rw [if_neg hc]

theorem resolveAlignment_none : resolveAlignment none = "center" := by
  decide

/-! ## Claim theorems: alignment (C9) -/

/-- Claim C9: for every config object, the alignment used in the output of
`createWelcomeScreen` and of `createEndSlide` is always one of `"left"`,
`"center"`, `"right"`; when `config.alignment` is absent or any value
outside that set, both functions fall back to `"center"`. -/
theorem alignment_always_valid (tr trE : String → String)
    (wc : WelcomeConfig) (ec : EndSlideConfig) :
    (createWelcomeScreen tr wc).alignment ∈ validAlignments ∧
    (createEndSlide trE ec).alignment ∈ validAlignments ∧
    (wc.alignment = none → (createWelcomeScreen tr wc).alignment = "center") ∧
    (∀ s, wc.alignment = some s → s ∉ validAlignments →
      (createWelcomeScreen tr wc).alignment = "center") ∧
    (ec.alignment = none → (createEndSlide trE ec).alignment = "center") ∧
    (∀ s, ec.alignment = some s → s ∉ validAlignments →
      (createEndSlide trE ec).alignment = "center") := by
  have hw : (createWelcomeScreen tr wc).alignment =
      resolveAlignment wc.alignment := rfl
  have he : (createEndSlide trE ec).alignment =
      resolveAlignment ec.alignment := rfl
  refine ⟨?_, ?_, ?_, ?_, ?_, ?_⟩
  · rw [hw]; exact resolveAlignment_mem _
  · rw [he]; exact resolveAlignment_mem _
  · intro h; rw [hw, h]; exact resolveAlignment_none
  · intro s h hs; rw [hw, h]; exact resolveAlignment_default s hs
  · intro h; rw [he, h]; exact resolveAlignment_none
  · intro s h hs; rw [he, h]; exact resolveAlignment_default s hs

/-- Witness for `alignment_always_valid` at concrete inputs. -/
theorem alignment_always_valid_witness :
    (createWelcomeScreen (fun _ => "") ⟨none, none, none, some "top"⟩).alignment = "center" ∧
    (createEndSlide (fun _ => "") ⟨none, none, none, some "top", none, none⟩).alignment = "center" :=
  ⟨(alignment_always_valid (fun _ => "") (fun _ => "")
      ⟨none, none, none, some "top"⟩
      ⟨none, none, none, some "top", none, none⟩).2.2.2.1 "top" rfl (by decide),
   (alignment_always_valid (fun _ => "") (fun _ => "")
      ⟨none, none, none, some "top"⟩
      ⟨none, none, none, some "top", none, none⟩).2.2.2.2.2 "top" rfl (by decide)⟩

theorem orElseStr_empty_eq (a : Option String) :
    (orElseStr a "" == "") = !(truthyStr a) := by
  cases a with
  | none => rfl
  | some s =>
    by_cases h : (s == "") = true
    · simp [orElseStr, truthyStr, h]
    · simp [orElseStr, truthyStr, h]

theorem orElseStr_of_falsy (a : Option String) (b : String)
    (h : truthyStr a = false) : orElseStr a b = b := by
  cases a with
  | none => rfl
  | some s =>
    simp only [truthyStr, Bool.not_eq_false'] at h
    simp [orElseStr, h]

theorem orElseStr2_ne_empty (a : Option String) (b c : String)
    (hc : (c == "") = false) : (orElseStr2 a b c == "") = false := by
  unfold orElseStr2
  by_cases h : (orElseStr a b == "") = true
  · simp only [h, if_true]
    exact hc
  · simp only [h, if_false]
    simpa using h

/-! ## Claim theorems: end slide CTA vs redirect (C10) -/

/-- Claim C10: the end slide contains the CTA button iff `redirectUrl` is
falsy (its text defaulting to the `create-survey-btn` translation or
`"Create a Survey"` when not supplied), contains the redirect message iff
`redirectUrl` is truthy, and never contains both. -/
theorem endSlide_button_xor_redirect (tr : String → String)
    (config : EndSlideConfig) :
    ((createEndSlide tr config).buttonShown = true ↔
      truthyStr config.redirectUrl = false) ∧
    ((createEndSlide tr config).redirectShown = true ↔
      truthyStr config.redirectUrl = true) ∧
    (¬((createEndSlide tr config).buttonShown = true ∧
        (createEndSlide tr config).redirectShown = true)) ∧
    (truthyStr config.redirectUrl = false → truthyStr config.buttonText = false →
      (createEndSlide tr config).buttonText =
        (if (tr "create-survey-btn" == "") = true then "Create a Survey"
         else tr "create-survey-btn")) := by
  have hr := orElseStr_empty_eq config.redirectUrl
  by_cases h : (orElseStr config.redirectUrl "" == "") = true
  · have ht : truthyStr config.redirectUrl = false := by
      rw [h] at hr
      simpa using hr.symm
    have hb : (orElseStr2 config.buttonText (tr "create-survey-btn")
        "Create a Survey" == "") = false := orElseStr2_ne_empty _ _ _ (by decide)
    refine ⟨?_, ?_, ?_, ?_⟩
    · simp [createEndSlide, h, hb, ht]
    · simp [createEndSlide, h, ht]
    · simp [createEndSlide, h, ht]
    · intro _ hbt
      simp only [createEndSlide, h]
      simp only [Bool.not_true, if_false, if_true]
      rw [orElseStr2, orElseStr_of_falsy _ _ hbt]
      simp
  · have ht : truthyStr config.redirectUrl = true := by
      simp only [Bool.not_eq_true] at h
      rw [h] at hr
      simpa using hr.symm
    refine ⟨?_, ?_, ?_, ?_⟩
    · simp [createEndSlide, h, ht]
    · simp [createEndSlide, h, ht]
    · simp [createEndSlide, h, ht]
    · intro hf
      rw [ht] at hf
      exact absurd hf (by decide)

/-- Witness for `endSlide_button_xor_redirect` at a concrete config. -/
theorem endSlide_button_xor_redirect_witness :
    (createEndSlide (fun _ => "") ⟨none, none, none, none, none, none⟩).buttonText = "Create a Survey" ∧
    (createEndSlide (fun _ => "") ⟨none, none, none, none, none, none⟩).buttonShown = true :=
  ⟨by
    have h := (endSlide_button_xor_redirect (fun _ => "")
      ⟨none, none, none, none, none, none⟩).2.2.2 (by decide) (by decide)
    simpa using h,
   (endSlide_button_xor_redirect (fun _ => "")
      ⟨none, none, none, none, none, none⟩).1.mpr (by decide)⟩

/-! ## Claim theorems: `getCurrentFormData` null behavior (C8) -/

theorem querySelectorFmdName_eq_none (slide : ActiveSlide) :
    querySelectorFmdName slide = none ↔
      ∀ e ∈ slide.elements, e.dataFmdName = none := by
  cases hf : slide.elements.find? (fun e => e.dataFmdName.isSome) with
  | none =>
    have hq : querySelectorFmdName slide = none := by
      unfold querySelectorFmdName
      rw [hf]
    rw [hq]
    simp only [true_iff]
    intro e he
    have := List.find?_eq_none.mp hf e he
    simpa using this
  | some e2 =>
    have hq : querySelectorFmdName slide = e2.dataFmdName := by
      unfold querySelectorFmdName
      rw [hf]
    have h1 : e2.dataFmdName.isSome = true := by
      simpa using List.find?_some hf
    have h2 : e2 ∈ slide.elements := List.mem_of_find?_eq_some hf
    rw [hq]
    constructor
    · intro h
      rw [h] at h1
      exact absurd h1 (by decide)
    · intro h
      rw [h e2 h2] at h1
      exact absurd h1 (by decide)

/-- Claim C8: `getCurrentFormData` returns null exactly when no truthy
question id is supplied via `originalQuestion` and the active slide has no
element carrying `data-fmd-name`; in every other case the result's
`questionId` equals the supplied or extracted id. -/
theorem getCurrentFormData_spec (extract : String → String) (t : Nat)
    (slide : ActiveSlide) (oq : Option OriginalQuestion) :
    (getCurrentFormData extract t slide oq = none ↔
      ((∀ q, oq = some q → truthyStr q.questionId = false) ∧
        ∀ e ∈ slide.elements, e.dataFmdName = none)) ∧
    (∀ q s, oq = some q → q.questionId = some s → s ≠ "" →
      getCurrentFormData extract t slide oq = some ⟨s, extract s, t⟩) ∧
    (∀ s, (∀ q, oq = some q → truthyStr q.questionId = false) →
      querySelectorFmdName slide = some s →
      getCurrentFormData extract t slide oq = some ⟨s, extract s, t⟩) := by
  refine ⟨?_, ?_, ?_⟩
  · cases oq with
    | none =>
      cases hs : querySelectorFmdName slide with
      | none =>
        simp only [getCurrentFormData, hs]
        exact iff_of_true trivial
          ⟨(fun q h => nomatch h), (querySelectorFmdName_eq_none slide).mp hs⟩
      | some s =>
        simp only [getCurrentFormData, hs]
        refine iff_of_false (by simp) ?_
        rintro ⟨-, h⟩
        rw [(querySelectorFmdName_eq_none slide).mpr h] at hs
        exact Option.noConfusion hs
    | some q =>
      by_cases htr : truthyStr q.questionId = true
      · cases hq : q.questionId with
        | none =>
          rw [hq] at htr
          exact absurd htr (by decide)
        | some s =>
          have hts : truthyStr (some s) = true := by
            rw [← hq]
            exact htr
          simp only [getCurrentFormData, hq, hts, if_true]
          refine iff_of_false (by simp) ?_
          rintro ⟨h1, -⟩
          have := h1 q rfl
          rw [this] at htr
          exact absurd htr (by decide)
      · simp only [Bool.not_eq_true] at htr
        cases hs : querySelectorFmdName slide with
        | none =>
          simp only [getCurrentFormData, htr, Bool.false_eq_true, if_false, hs]
          refine iff_of_true trivial
            ⟨?_, (querySelectorFmdName_eq_none slide).mp hs⟩
          intro q2 hq2
          rw [← Option.some_inj.mp hq2]
          exact htr
        | some s =>
          simp only [getCurrentFormData, htr, Bool.false_eq_true, if_false, hs]
          refine iff_of_false (by simp) ?_
          rintro ⟨-, h⟩
          rw [(querySelectorFmdName_eq_none slide).mpr h] at hs
          exact Option.noConfusion hs
  · intro q s hoq hqid hne
    subst hoq
    have hts : truthyStr (some s) = true := by
      simp [truthyStr, hne]
    simp [getCurrentFormData, hqid, hts]
  · intro s hfalse hs
    cases oq with
    | none => simp [getCurrentFormData, hs]
    | some q =>
      have htr : truthyStr q.questionId = false := hfalse q rfl
      simp [getCurrentFormData, htr, hs]

/-- Witness for `getCurrentFormData_spec` at concrete inputs. -/
theorem getCurrentFormData_spec_witness :
    getCurrentFormData (fun _ => "v") 7 ⟨[⟨none⟩]⟩ (some ⟨some "qid"⟩) =
      some ⟨"qid", "v", 7⟩ ∧
    getCurrentFormData (fun _ => "v") 7 ⟨[⟨none⟩]⟩ none = none :=
  ⟨(getCurrentFormData_spec (fun _ => "v") 7 ⟨[⟨none⟩]⟩
      (some ⟨some "qid"⟩)).2.1 ⟨some "qid"⟩ "qid" rfl rfl (by decide),
   (getCurrentFormData_spec (fun _ => "v") 7 ⟨[⟨none⟩]⟩ none).1.mpr
      ⟨(fun q h => nomatch h), by decide⟩⟩

/-! ## Claim theorems: content template stage order (C2) -/

/-- Claim C2 counterexample: in `createContentTemplate` with page setting
`"form-slides"`, the input handed to `parseSlides` is the template after
div and bind-span parsing only — it contains no Marked block/field
rendering stage, so segmentation operates on not-yet-rendered source
text, refuting the claim that `parseSlides` is applied only after
rendering. -/
theorem contentTemplate_segmentation_unrendered :
    createContentTemplate "hello" "form-slides" =
      Tpl.markdownParsed (Tpl.nunjucksRendered (Tpl.slidesParsed true
        (Tpl.bindSpansParsed (Tpl.divsParsed (Tpl.source "hello"))))) ∧
    Tpl.slidesArg (createContentTemplate "hello" "form-slides") =
      some (Tpl.bindSpansParsed (Tpl.divsParsed (Tpl.source "hello"))) ∧
    Tpl.hasMarkdownParsed
      (Tpl.bindSpansParsed (Tpl.divsParsed (Tpl.source "hello"))) = false := by
  refine ⟨by decide, by decide, by decide⟩

/-- Claim C2 (amended): for every template compiled with a page setting
other than `"single"`, slide segmentation is applied after `<div>` and
bind `<span>` parsing but before the Nunjucks data render and before the
Marked block/field rendering of the `<markdown>` sections; the input of
`parseSlides` never contains a rendered-markup stage. -/
theorem contentTemplate_segmentation_order (template page : String)
    (hp : page ≠ "single") :
    createContentTemplate template page =
      Tpl.markdownParsed (Tpl.nunjucksRendered
        (Tpl.slidesParsed (page == "form-slides")
          (Tpl.bindSpansParsed (Tpl.divsParsed (Tpl.source template))))) ∧
    Tpl.slidesArg (createContentTemplate template page) =
      some (Tpl.bindSpansParsed (Tpl.divsParsed (Tpl.source template))) ∧
    (∀ u, Tpl.slidesArg (createContentTemplate template page) = some u →
      Tpl.hasMarkdownParsed u = false) := by
  have hcond : (page == "single") = false := by simpa using hp
  have h1 : createContentTemplate template page =
      Tpl.markdownParsed (Tpl.nunjucksRendered
        (Tpl.slidesParsed (page == "form-slides")
          (Tpl.bindSpansParsed (Tpl.divsParsed (Tpl.source template))))) := by
    simp [createContentTemplate, hcond]
  have h2 : Tpl.slidesArg (createContentTemplate template page) =
      some (Tpl.bindSpansParsed (Tpl.divsParsed (Tpl.source template))) := by
    rw [h1]
    simp [Tpl.slidesArg]
  refine ⟨h1, h2, ?_⟩
  intro u hu
  rw [h2] at hu
  cases hu
  rfl

/-- Witness for `contentTemplate_segmentation_order` at a concrete input. -/
theorem contentTemplate_segmentation_order_witness :
    Tpl.slidesArg (createContentTemplate "x" "paged") =
      some (Tpl.bindSpansParsed (Tpl.divsParsed (Tpl.source "x"))) :=
  (contentTemplate_segmentation_order "x" "paged" (by decide)).2.1

/-! ## Claim theorems: checkbox list items (C6) -/

/-- Claim C6: a list item whose text begins with the literal token `[ ]` or
`[x]`/`[X]` has the token removed and replaced by an ARIA checkbox
indicator: `[x]`/`[X]` render checked with `aria-checked="true"`, `[ ]`
renders unchecked with `aria-checked="false"`, each carrying an
aria-label. -/
theorem listItem_checkbox_spec (rest : List Char) :
    renderListItemChars ('[' :: 'x' :: ']' :: rest) =
      ⟨some ⟨true, "true", "Checked"⟩, trimLeftChars rest⟩ ∧
    renderListItemChars ('[' :: 'X' :: ']' :: rest) =
      ⟨some ⟨true, "true", "Checked"⟩, trimLeftChars rest⟩ ∧
    renderListItemChars ('[' :: ' ' :: ']' :: rest) =
      ⟨some ⟨false, "false", "Not checked"⟩, trimLeftChars rest⟩ ∧
    renderListItem "[x] Item" = ⟨some ⟨true, "true", "Checked"⟩, "Item".data⟩ ∧
    renderListItem "[ ] Item" =
      ⟨some ⟨false, "false", "Not checked"⟩, "Item".data⟩ := by
  refine ⟨?_, ?_, ?_, by decide, by decide⟩ <;> simp [renderListItemChars]

/-! ## Claim theorems: slide boundaries only at depth zero (C7) -/

theorem splitIndicesAux_spec (delim : String) :
    ∀ (ls : List String) (st : SlideScanState) (i j : Nat),
      j ∈ splitIndicesAux delim st i ls →
      ∃ k, k < ls.length ∧ j = i + k ∧
        isSplitPoint delim ((ls.take k).foldl scanStep st)
          (ls.getD k "") = true := by
  intro ls
  induction ls with
  | nil =>
    intro st i j h
    exact absurd h (by simp [splitIndicesAux])
  | cons l ls ih =>
    intro st i j h
    simp only [splitIndicesAux] at h
    by_cases hc : isSplitPoint delim st l = true
    · rw [if_pos hc] at h
      rcases List.mem_cons.mp h with rfl | h2
      · exact ⟨0, by simp, by omega, by simpa using hc⟩
      · rcases ih (scanStep st l) (i + 1) j h2 with ⟨k, hk, hj, hsp⟩
        refine ⟨k + 1, by simpa using hk, by omega, ?_⟩
        simpa using hsp
    · rw [if_neg hc] at h
      rcases ih (scanStep st l) (i + 1) j h with ⟨k, hk, hj, hsp⟩
      refine ⟨k + 1, by simpa using hk, by omega, ?_⟩
      simpa using hsp

theorem parseSlidesAux_length (delim : String) :
    ∀ (ls : List String) (st : SlideScanState) (cur : List String) (i : Nat),
      (parseSlidesAux delim st cur ls).length =
        (splitIndicesAux delim st i ls).length + 1 := by
  intro ls
  induction ls with
  | nil =>
    intro st cur i
    simp [parseSlidesAux, splitIndicesAux]
  | cons l ls ih =>
    intro st cur i
    by_cases hc : isSplitPoint delim st l = true
    · have h2 := ih (scanStep st l) [] (i + 1)
      simp only [parseSlidesAux, splitIndicesAux, if_pos hc, List.length_cons]
      omega
    · have h2 := ih (scanStep st l) (l :: cur) (i + 1)
      simp only [parseSlidesAux, splitIndicesAux, if_neg hc]
      omega

/-- Claim C7: slide segmentation produces a boundary at a line only when
the line-by-line scan is at fence depth zero and block-construct depth
zero and the line is delimiter-shaped; in particular a delimiter-shaped
line inside an open fenced code block or an open field/data block never
produces a boundary. Boundaries and segments correspond: segmentation
yields one more segment than boundaries. -/
theorem parseSlides_depth_zero_split (delim : String) (lines : List String) :
    (∀ j ∈ splitIndices delim lines,
      isDelimiterLine delim (lines.getD j "") = true ∧
      (stateAt lines j).fenceDepth = 0 ∧ (stateAt lines j).blockDepth = 0) ∧
    (∀ i, ¬((stateAt lines i).fenceDepth = 0 ∧
        (stateAt lines i).blockDepth = 0) →
      i ∉ splitIndices delim lines) ∧
    (parseSlides delim lines).length = (splitIndices delim lines).length + 1 := by
  have main : ∀ j ∈ splitIndices delim lines,
      isDelimiterLine delim (lines.getD j "") = true ∧
      (stateAt lines j).fenceDepth = 0 ∧ (stateAt lines j).blockDepth = 0 := by
    intro j hj
    rcases splitIndicesAux_spec delim lines ⟨0, 0⟩ 0 j hj with ⟨k, hk, hj0, hsp⟩
    have hkj : k = j := by omega
    subst hkj
    have hsp2 := hsp
    simp only [isSplitPoint, Bool.and_eq_true, beq_iff_eq] at hsp2
    exact ⟨hsp2.1.1, hsp2.1.2, hsp2.2⟩
  refine ⟨main, ?_, ?_⟩
  · intro i hdepth hmem
    exact hdepth ⟨(main i hmem).2.1, (main i hmem).2.2⟩
  · exact parseSlidesAux_length delim lines ⟨0, 0⟩ [] 0

/-- Witness for `parseSlides_depth_zero_split`: a delimiter line inside an
open code fence (index 1) is not a boundary, while the one after the fence
closes (index 3) is delimiter-shaped at depth zero. -/
theorem parseSlides_depth_zero_split_witness :
    1 ∉ splitIndices "---" ["```", "---", "```", "---"] ∧
    isDelimiterLine "---" (["```", "---", "```", "---"].getD 3 "") = true :=
  ⟨(parseSlides_depth_zero_split "---" ["```", "---", "```", "---"]).2.1 1
      (by decide),
   ((parseSlides_depth_zero_split "---" ["```", "---", "```", "---"]).1 3
      (by decide)).1⟩

/-! ## Claim theorems: country calling code options (C1) -/

theorem mem_dedupKeepFirst (l : List String) (x : String) :
    x ∈ dedupKeepFirst l ↔ x ∈ l := by
  induction l with
  | nil => simp [dedupKeepFirst]
  | cons y ys ih =>
    simp only [dedupKeepFirst, List.mem_cons, List.mem_filter]
    constructor
    · rintro (rfl | ⟨hx, -⟩)
      · exact Or.inl rfl
      · exact Or.inr (ih.mp hx)
    · rintro (rfl | hx)
      · exact Or.inl rfl
      · by_cases hxy : x = y
        · exact Or.inl hxy
        · refine Or.inr ⟨ih.mpr hx, ?_⟩
          simpa using hxy

theorem dedupKeepFirst_nodup (l : List String) : (dedupKeepFirst l).Nodup := by
  induction l with
  | nil => simp [dedupKeepFirst]
  | cons y ys ih =>
    simp only [dedupKeepFirst, List.nodup_cons]
    refine ⟨?_, ih.filter _⟩
    intro hmem
    rcases List.mem_filter.mp hmem with ⟨-, hne⟩
    simp at hne

theorem registryLookup_isoCode (c : String) (e : String × String × String)
    (h : registryLookup c = some e) : e.1 = c := by
  have := List.find?_some h
  simpa using this

theorem filterMap_lookup_isoCodes (sel : String) :
    ∀ R : List String, (∀ c ∈ R, (registryLookup c).isSome = true) →
      (R.filterMap (fun c => (registryLookup c).map
        (mkCallingCodeOption (c == sel)))).map
          (fun o => o.isoCode) = R := by
  intro R
  induction R with
  | nil => simp
  | cons c R ih =>
    intro h
    have hc := h c (List.mem_cons_self c R)
    rcases Option.isSome_iff_exists.mp hc with ⟨e, he⟩
    have hio : e.1 = c := registryLookup_isoCode c e he
    have htail := ih (fun x hx => h x (List.mem_cons_of_mem _ hx))
    simp only [List.filterMap_cons, he, Option.map_some']
    simp [mkCallingCodeOption, hio, htail]

theorem filterMap_lookup_selected (sel : String) :
    ∀ (R : List String)
      (o : CountryCallingCodeOption),
      o ∈ R.filterMap (fun c => (registryLookup c).map
        (mkCallingCodeOption (c == sel))) →
      o.selected = (o.isoCode == sel) := by
  intro R
  induction R with
  | nil => simp
  | cons c R ih =>
    intro o ho
    cases he : registryLookup c with
    | none =>
      rw [List.filterMap_cons, he] at ho
      exact ih o ho
    | some e =>
      rw [List.filterMap_cons, he] at ho
      simp only [Option.map_some'] at ho
      rcases List.mem_cons.mp ho with rfl | ho2
      · have hio : e.1 = c := registryLookup_isoCode c e he
        simp [mkCallingCodeOption, hio]
      · exact ih o ho2

/-- Claim C1: with a non-empty restriction list,
`createCountryCallingCodeOptions` returns the restriction codes
normalized to uppercase, duplicates removed, caller order preserved; if
the normalized selected code is in that set, exactly that set is returned
in order, otherwise the selected code's registry entry comes first; each
option is marked selected exactly when it is the selected code's. In
particular the two concrete cases of the test suite hold. -/
theorem createCountryCallingCodeOptions_spec (selectedCode : String)
    (restriction : List String) (hne : restriction ≠ [])
    (hreg : ∀ c ∈ restriction, (registryLookup (strToUpper c)).isSome = true)
    (hsel : (registryLookup (strToUpper selectedCode)).isSome = true) :
    (dedupKeepFirst (restriction.map strToUpper)).Nodup ∧
    (∀ x, x ∈ dedupKeepFirst (restriction.map strToUpper) ↔
      x ∈ restriction.map strToUpper) ∧
    ((createCountryCallingCodeOptions selectedCode restriction).map
        (fun o => o.isoCode) =
      if strToUpper selectedCode ∈
          dedupKeepFirst (restriction.map strToUpper) then
        dedupKeepFirst (restriction.map strToUpper)
      else
        strToUpper selectedCode ::
          dedupKeepFirst (restriction.map strToUpper)) ∧
    (∀ o ∈ createCountryCallingCodeOptions selectedCode restriction,
      o.selected = (o.isoCode == strToUpper selectedCode)) ∧
    createCountryCallingCodeOptions "Gb" ["bd", "gb", "US"] =
      [⟨"BD", "+880", "1812-345678", false⟩,
       ⟨"GB", "+44", "07400 123456", true⟩,
       ⟨"US", "+1", "(201) 555-0123", false⟩] ∧
    createCountryCallingCodeOptions "SG" ["GB", "BD", "US"] =
      [⟨"SG", "+65", "8123 4567", true⟩,
       ⟨"GB", "+44", "07400 123456", false⟩,
       ⟨"BD", "+880", "1812-345678", false⟩,
       ⟨"US", "+1", "(201) 555-0123", false⟩] := by
  have hie : restriction.isEmpty = false := by
    cases restriction with
    | nil => exact absurd rfl hne
    | cons r rs => rfl
  have hR : ∀ c ∈ dedupKeepFirst (restriction.map strToUpper),
      (registryLookup c).isSome = true := by
    intro c hc
    rcases List.mem_map.mp ((mem_dedupKeepFirst _ _).mp hc) with ⟨x, hx, rfl⟩
    exact hreg x hx
  have hunfold : createCountryCallingCodeOptions selectedCode restriction =
      (if (dedupKeepFirst (restriction.map strToUpper)).contains
          (strToUpper selectedCode) then
        (dedupKeepFirst (restriction.map strToUpper)).filterMap
          (fun c => (registryLookup c).map
            (mkCallingCodeOption (c == strToUpper selectedCode)))
      else
        match registryLookup (strToUpper selectedCode) with
        | some e => mkCallingCodeOption true e ::
            (dedupKeepFirst (restriction.map strToUpper)).filterMap
              (fun c => (registryLookup c).map
                (mkCallingCodeOption (c == strToUpper selectedCode)))
        | none =>
            (dedupKeepFirst (restriction.map strToUpper)).filterMap
              (fun c => (registryLookup c).map
                (mkCallingCodeOption (c == strToUpper selectedCode)))) := by
    simp only [createCountryCallingCodeOptions, hie, Bool.false_eq_true,
      if_false]
  rcases Option.isSome_iff_exists.mp hsel with ⟨e, he⟩
  have hioe : e.1 = strToUpper selectedCode :=
    registryLookup_isoCode _ e he
  refine ⟨dedupKeepFirst_nodup _, fun x => mem_dedupKeepFirst _ x, ?_, ?_,
    by decide, by decide⟩
  · by_cases hmem : strToUpper selectedCode ∈
        dedupKeepFirst (restriction.map strToUpper)
    · have hcont : (dedupKeepFirst (restriction.map
          strToUpper)).contains (strToUpper selectedCode) = true := by
        simpa using hmem
      rw [hunfold, if_pos hcont, if_pos hmem]
      exact filterMap_lookup_isoCodes _ _ hR
    · have hcont : ¬ (dedupKeepFirst (restriction.map
          strToUpper)).contains (strToUpper selectedCode) = true := by
        simpa using hmem
      rw [hunfold, if_neg hcont, if_neg hmem, he]
      simp only [List.map_cons]
      rw [filterMap_lookup_isoCodes _ _ hR]
      simp [mkCallingCodeOption, hioe]
  · intro o ho
    rw [hunfold] at ho
    by_cases hcont : (dedupKeepFirst (restriction.map
        strToUpper)).contains (strToUpper selectedCode) = true
    · rw [if_pos hcont] at ho
      exact filterMap_lookup_selected _ _ o ho
    · rw [if_neg hcont, he] at ho
      rcases List.mem_cons.mp ho with rfl | ho2
      · simp [mkCallingCodeOption, hioe]
      · exact filterMap_lookup_selected _ _ o ho2

/-- Witness for `createCountryCallingCodeOptions_spec` at the test inputs. -/
theorem createCountryCallingCodeOptions_spec_witness :
    (dedupKeepFirst (["bd", "gb", "US"].map strToUpper)).Nodup :=
  (createCountryCallingCodeOptions_spec "Gb" ["bd", "gb", "US"] (by decide)
    (by decide) (by decide)).1

/-! ## Claim theorems: attribute blocks on wrappers (C3) -/

theorem takeWhile_append_stop (p : Char → Bool) (xs ys : List Char) (y : Char)
    (hxs : ∀ x ∈ xs, p x = true) (hy : p y = false) :
    (xs ++ y :: ys).takeWhile p = xs := by
  induction xs with
  | nil => simp [List.takeWhile_cons, hy]
  | cons a xs ih =>
    have ha := hxs a (List.mem_cons_self a xs)
    simp only [List.cons_append, List.takeWhile_cons, ha, if_true]
    rw [ih (fun x hx => hxs x (List.mem_cons_of_mem _ hx))]

theorem dropWhile_append_stop (p : Char → Bool) (xs ys : List Char) (y : Char)
    (hxs : ∀ x ∈ xs, p x = true) (hy : p y = false) :
    (xs ++ y :: ys).dropWhile p = y :: ys := by
  induction xs with
  | nil => simp [List.dropWhile_cons, hy]
  | cons a xs ih =>
    have ha := hxs a (List.mem_cons_self a xs)
    simp only [List.cons_append, List.dropWhile_cons, ha, if_true]
    exact ih (fun x hx => hxs x (List.mem_cons_of_mem _ hx))

theorem parseAttrTokensAux_close (rest : List Char) (ab : AttributeBlock) :
    parseAttrTokensAux (']' :: rest) ab = some (ab, rest) := by
  rw [parseAttrTokensAux]
  simp

theorem parseAttrTokensAux_ws (c : Char) (rest : List Char)
    (ab : AttributeBlock) (hws : c.isWhitespace = true)
    (hne : (c == ']') = false) :
    parseAttrTokensAux (c :: rest) ab = parseAttrTokensAux rest ab := by
  rw [parseAttrTokensAux]
  simp [hne, hws]

theorem parseAttrTokensAux_hash (rest : List Char) (ab : AttributeBlock) :
    parseAttrTokensAux ('#' :: rest) ab =
      parseAttrTokensAux (rest.dropWhile isTokenChar)
        { ab with idAttr := some (String.mk (rest.takeWhile isTokenChar)) } := by
  rw [parseAttrTokensAux]
  simp

theorem parseAttrTokensAux_dot (rest : List Char) (ab : AttributeBlock) :
    parseAttrTokensAux ('.' :: rest) ab =
      parseAttrTokensAux (rest.dropWhile isTokenChar)
        { ab with classes :=
            ab.classes ++ [String.mk (rest.takeWhile isTokenChar)] } := by
  rw [parseAttrTokensAux]
  simp

theorem parseAttrTokensAux_kv (c : Char) (rest : List Char)
    (ab : AttributeBlock) (q : Char) (vrest : List Char) (w : Char)
    (rest3 : List Char)
    (hc1 : (c == ']') = false) (hc2 : c.isWhitespace = false)
    (hc3 : (c == '#') = false) (hc4 : (c == '.') = false)
    (h1 : (c :: rest).dropWhile isKeyChar = '=' :: q :: vrest)
    (hq : (q == dquoteChar || q == squoteChar) = true)
    (h2 : vrest.dropWhile (fun x => !(x == q)) = w :: rest3) :
    parseAttrTokensAux (c :: rest) ab =
      parseAttrTokensAux rest3
        { ab with attributes := ab.attributes ++
            [(String.mk ((c :: rest).takeWhile isKeyChar),
              String.mk (vrest.takeWhile (fun x => !(x == q))))] } := by
  rw [parseAttrTokensAux]
  simp only [hc1, hc2, hc3, hc4, Bool.false_eq_true, if_false]
  split
  · rename_i q2 vrest2 heq
    rw [h1] at heq
    injection heq with heq1 heq2
    injection heq2 with heq2a heq2b
    subst heq2a
    subst heq2b
    rw [if_pos hq]
    split
    · rename_i w2 rest32 heq3
      rw [h2] at heq3
      injection heq3 with heq3a heq3b
      subst heq3b
      rfl
    · rename_i heq3
      rw [h2] at heq3
      exact absurd heq3 (List.cons_ne_nil w rest3)
  · rename_i hall
    exact (hall q vrest h1).elim

theorem isKeyChar_props (c : Char) (h : isKeyChar c = true) :
    c.isWhitespace = false ∧ (c == ']') = false := by
  simp only [isKeyChar, Bool.and_eq_true, Bool.not_eq_true'] at h
  exact ⟨h.1.1, h.1.2⟩

theorem parseAttrs_shape (i a b k v rest : List Char)
    (hi : ∀ c ∈ i, isTokenChar c = true)
    (ha : ∀ c ∈ a, isTokenChar c = true)
    (hb : ∀ c ∈ b, isTokenChar c = true)
    (hk : ∀ c ∈ k, isKeyChar c = true)
    (hk0 : k ≠ [])
    (hkh : ∀ c, k.head? = some c → (c == '#') = false ∧ (c == '.') = false)
    (hv : ∀ c ∈ v, (c == dquoteChar) = false) :
    parseAttrs ('[' :: ('#' :: (i ++ (' ' :: ('.' :: (a ++ (' ' :: ('.' ::
        (b ++ (' ' :: (k ++ ('=' :: (dquoteChar ::
          (v ++ (dquoteChar :: (']' :: rest)))))))))))))))) =
      some (⟨some (String.mk i), [String.mk a, String.mk b], [(String.mk k, String.mk v)]⟩, rest) := by
  cases k with
  | nil => exact absurd rfl hk0
  | cons kc kt =>
  have hkc : isKeyChar kc = true := hk kc (List.mem_cons_self kc kt)
  have hkcp := isKeyChar_props kc hkc
  have hkch := hkh kc rfl
  show parseAttrTokensAux _ emptyAttributeBlock = _
  rw [parseAttrTokensAux_hash]
  rw [takeWhile_append_stop isTokenChar i _ ' ' hi (by decide)]
  rw [dropWhile_append_stop isTokenChar i _ ' ' hi (by decide)]
  rw [parseAttrTokensAux_ws ' ' _ _ (by decide) (by decide)]
  rw [parseAttrTokensAux_dot]
  rw [takeWhile_append_stop isTokenChar a _ ' ' ha (by decide)]
  rw [dropWhile_append_stop isTokenChar a _ ' ' ha (by decide)]
  rw [parseAttrTokensAux_ws ' ' _ _ (by decide) (by decide)]
  rw [parseAttrTokensAux_dot]
  rw [takeWhile_append_stop isTokenChar b _ ' ' hb (by decide)]
  rw [dropWhile_append_stop isTokenChar b _ ' ' hb (by decide)]
  rw [parseAttrTokensAux_ws ' ' _ _ (by decide) (by decide)]
  have h1 : ((kc :: kt) ++ ('=' :: (dquoteChar ::
      (v ++ (dquoteChar :: (']' :: rest)))))).dropWhile isKeyChar =
      '=' :: (dquoteChar :: (v ++ (dquoteChar :: (']' :: rest)))) :=
    dropWhile_append_stop isKeyChar (kc :: kt) _ '=' hk (by decide)
  have h2 : (v ++ (dquoteChar :: (']' :: rest))).dropWhile
      (fun x => !(x == dquoteChar)) = dquoteChar :: (']' :: rest) := by
    refine dropWhile_append_stop _ v _ dquoteChar ?_ (by simp)
    intro x hx
    simp [hv x hx]
  have htk : ((kc :: kt) ++ ('=' :: (dquoteChar ::
      (v ++ (dquoteChar :: (']' :: rest)))))).takeWhile isKeyChar =
      kc :: kt :=
    takeWhile_append_stop isKeyChar (kc :: kt) _ '=' hk (by decide)
  rw [List.cons_append] at htk
  have htv : (v ++ (dquoteChar :: (']' :: rest))).takeWhile
      (fun x => !(x == dquoteChar)) = v := by
    refine takeWhile_append_stop _ v _ dquoteChar ?_ (by simp)
    intro x hx
    simp [hv x hx]
  have hkv := parseAttrTokensAux_kv kc
    (kt ++ ('=' :: (dquoteChar :: (v ++ (dquoteChar :: (']' :: rest))))))
    ⟨some (String.mk i), [String.mk a, String.mk b], []⟩
    dquoteChar (v ++ (dquoteChar :: (']' :: rest))) dquoteChar (']' :: rest)
    hkcp.2 hkcp.1 hkch.1 hkch.2 (by simpa using h1) (by simp)
    h2
  show parseAttrTokensAux (kc :: (kt ++ ('=' :: (dquoteChar ::
      (v ++ (dquoteChar :: (']' :: rest)))))))
      ⟨some (String.mk i), [String.mk a, String.mk b], []⟩ = _
  rw [hkv, htk, htv, parseAttrTokensAux_close]
  rfl

theorem trimLeftChars_cons_space (t : List Char) :
    trimLeftChars (' ' :: t) = trimLeftChars t := by
  simp [trimLeftChars, List.dropWhile_cons]

/-- Claim C3: for every block annotated with a valid attribute block of the
form `[#id .a .b key="v"]`, the rendered wrapper element has the declared
id, contains the classes with the configured class-name prefix applied,
and carries the attribute; and an empty or whitespace-only block (`[]`,
`[ ]`) yields the empty attribute block, adding no id, classes, or
attributes, while default heading-slug generation still occurs (the
rendering equals that of the unannotated block). -/
theorem attributeBlock_wrapper_spec (pfx : String) (used : List String)
    (lvl : Nat) (i a b k v rest t : List Char)
    (hi : ∀ c ∈ i, isTokenChar c = true)
    (ha : ∀ c ∈ a, isTokenChar c = true)
    (hb : ∀ c ∈ b, isTokenChar c = true)
    (hk : ∀ c ∈ k, isKeyChar c = true)
    (hk0 : k ≠ [])
    (hkh : ∀ c, k.head? = some c → (c == '#') = false ∧ (c == '.') = false)
    (hv : ∀ c ∈ v, (c == dquoteChar) = false)
    (ht1 : parseAttrs t = none) (ht2 : trimLeftChars t = t) :
    parseAttrs ('[' :: ('#' :: (i ++ (' ' :: ('.' :: (a ++ (' ' :: ('.' ::
        (b ++ (' ' :: (k ++ ('=' :: (dquoteChar ::
          (v ++ (dquoteChar :: (']' :: rest)))))))))))))))) =
      some (⟨some (String.mk i), [String.mk a, String.mk b], [(String.mk k, String.mk v)]⟩, rest) ∧
    renderHeading pfx used lvl (String.mk ('[' :: ('#' :: (i ++ (' ' :: ('.' :: (a ++ (' ' :: ('.' ::
        (b ++ (' ' :: (k ++ ('=' :: (dquoteChar ::
          (v ++ (dquoteChar :: (']' :: rest))))))))))))))))) =
      (⟨lvl, String.mk i, false, [pfx ++ String.mk a, pfx ++ String.mk b], [(String.mk k, String.mk v)], trimLeftChars rest ++ (headingAnchorHtml pfx (String.mk i)).data⟩, used) ∧
    parseAttrs ('[' :: (']' :: t)) = some (emptyAttributeBlock, t) ∧
    parseAttrs ('[' :: (' ' :: (']' :: t))) = some (emptyAttributeBlock, t) ∧
    renderHeading pfx used lvl (String.mk ('[' :: (']' :: (' ' :: t)))) =
      renderHeading pfx used lvl (String.mk t) := by
  have hp := parseAttrs_shape i a b k v rest hi ha hb hk hk0 hkh hv
  have hclose : parseAttrs ('[' :: (']' :: (' ' :: t))) =
      some (emptyAttributeBlock, ' ' :: t) := by
    show parseAttrTokensAux (']' :: (' ' :: t)) emptyAttributeBlock = _
    rw [parseAttrTokensAux_close]
  refine ⟨hp, ?_, ?_, ?_, ?_⟩
  · simp only [renderHeading, consumeLeadingAttrBlock, hp]
    simp
  · show parseAttrTokensAux (']' :: t) emptyAttributeBlock = _
    rw [parseAttrTokensAux_close]
  · show parseAttrTokensAux (' ' :: (']' :: t)) emptyAttributeBlock = _
    rw [parseAttrTokensAux_ws ' ' _ _ (by decide) (by decide),
      parseAttrTokensAux_close]
  · simp only [renderHeading, consumeLeadingAttrBlock, hclose, ht1,
      trimLeftChars_cons_space, ht2]

/-- Witness for `attributeBlock_wrapper_spec` at concrete inputs. -/
theorem attributeBlock_wrapper_spec_witness :
    parseAttrs ('[' :: ('#' :: ("wid".data ++ (' ' :: ('.' :: ("ca".data ++ (' ' :: ('.' ::
        ("cb".data ++ (' ' :: ("key".data ++ ('=' :: (dquoteChar ::
          ("val".data ++ (dquoteChar :: (']' :: " Rest".data)))))))))))))))) =
      some (⟨some "wid", ["ca", "cb"], [("key", "val")]⟩, " Rest".data) :=
  (attributeBlock_wrapper_spec "bmd-" [] 1 "wid".data "ca".data "cb".data
    "key".data "val".data " Rest".data "Title".data
    (by decide) (by decide) (by decide) (by decide) (by decide)
    (by
      intro c hc
      have hck : c = 'k' := by simpa using hc.symm
      subst hck
      decide)
    (by decide) (by decide) (by decide)).1

/-! ## Claim theorems: heading slugs and uniqueness (C4) -/

theorem natDecimalDigitsRevAux_val (f : Nat) :
    ∀ n, n ≤ f → digitsRevVal (natDecimalDigitsRevAux f n) = n := by
  induction f with
  | zero =>
    intro n hn
    interval_cases n
    simp [natDecimalDigitsRevAux, digitsRevVal]
  | succ f ih =>
    intro n hn
    match n with
    | 0 => simp [natDecimalDigitsRevAux, digitsRevVal]
    | m + 1 =>
      have hdiv : (m + 1) / 10 ≤ f := by
        have := Nat.div_lt_self (Nat.succ_pos m) (show 1 < 10 by decide)
        omega
      simp only [natDecimalDigitsRevAux, digitsRevVal]
      rw [ih ((m + 1) / 10) hdiv]
      omega

theorem natDecimalDigitsRev_val (n : Nat) :
    digitsRevVal (natDecimalDigitsRev n) = n :=
  natDecimalDigitsRevAux_val n n (Nat.le_refl n)

theorem natDecimalDigitsRev_inj (m n : Nat)
    (h : natDecimalDigitsRev m = natDecimalDigitsRev n) : m = n := by
  have hm := natDecimalDigitsRev_val m
  have hn := natDecimalDigitsRev_val n
  rw [← hm, ← hn, h]

theorem natDecimalDigitsRevAux_lt_ten (f : Nat) :
    ∀ n, ∀ d ∈ natDecimalDigitsRevAux f n, d < 10 := by
  induction f with
  | zero =>
    intro n d hd
    match n with
    | 0 => simp [natDecimalDigitsRevAux] at hd
    | m + 1 => simp [natDecimalDigitsRevAux] at hd
  | succ f ih =>
    intro n d hd
    match n with
    | 0 => simp [natDecimalDigitsRevAux] at hd
    | m + 1 =>
      simp only [natDecimalDigitsRevAux] at hd
      rcases List.mem_cons.mp hd with rfl | hd2
      · exact Nat.mod_lt _ (by decide)
      · exact ih ((m + 1) / 10) d hd2

theorem decimalDigitChar_inj :
    ∀ d1 < 10, ∀ d2 < 10,
      decimalDigitChar d1 = decimalDigitChar d2 → d1 = d2 := by decide

theorem map_digitChar_inj (l1 : List Nat) :
    ∀ (l2 : List Nat), (∀ d ∈ l1, d < 10) → (∀ d ∈ l2, d < 10) →
      l1.map decimalDigitChar = l2.map decimalDigitChar → l1 = l2 := by
  induction l1 with
  | nil =>
    intro l2 _ _ h
    cases l2 with
    | nil => rfl
    | cons b bs => simp at h
  | cons a as ih =>
    intro l2 h1 h2 h
    cases l2 with
    | nil => simp at h
    | cons b bs =>
      simp only [List.map_cons, List.cons.injEq] at h
      have ha := h1 a (List.mem_cons_self a as)
      have hb := h2 b (List.mem_cons_self b bs)
      have hab := decimalDigitChar_inj a ha b hb h.1
      rw [hab, ih bs (fun d hd => h1 d (List.mem_cons_of_mem _ hd))
        (fun d hd => h2 d (List.mem_cons_of_mem _ hd)) h.2]

theorem natDecimalRepr_inj_pos (m n : Nat) (hm : m ≠ 0) (hn : n ≠ 0)
    (h : natDecimalRepr m = natDecimalRepr n) : m = n := by
  unfold natDecimalRepr at h
  rw [if_neg hm, if_neg hn] at h
  have h2 : (natDecimalDigitsRev m).reverse = (natDecimalDigitsRev n).reverse :=
    map_digitChar_inj _ _
      (fun d hd => natDecimalDigitsRevAux_lt_ten m m d (List.mem_reverse.mp hd))
      (fun d hd => natDecimalDigitsRevAux_lt_ten n n d (List.mem_reverse.mp hd))
      h
  have h3 := congrArg List.reverse h2
  simp only [List.reverse_reverse] at h3
  exact natDecimalDigitsRev_inj m n h3

theorem counterSlug_inj (base : String) (k1 k2 : Nat)
    (h : counterSlug base (k1 + 1) = counterSlug base (k2 + 1)) :
    k1 = k2 := by
  unfold counterSlug at h
  have hd := congrArg String.data h
  simp only [String.data_append] at hd
  have hd2 := List.append_cancel_left hd
  have hd3 : natDecimalRepr (k1 + 1) = natDecimalRepr (k2 + 1) := hd2
  have := natDecimalRepr_inj_pos (k1 + 1) (k2 + 1)
    (Nat.succ_ne_zero k1) (Nat.succ_ne_zero k2) hd3
  omega

theorem freshSlug_not_mem (used : List String) (base : String) :
    freshSlug used base ∉ used := by
  unfold freshSlug
  by_cases hb : base ∈ used
  · rw [if_pos hb]
    cases hf : ((List.range (used.length + 1)).map
        (fun k => counterSlug base (k + 1))).find?
        (fun c => !(decide (c ∈ used))) with
    | some c =>
      have hc := List.find?_some hf
      simpa using hc
    | none =>
      exfalso
      have hall : ∀ c ∈ (List.range (used.length + 1)).map
          (fun k => counterSlug base (k + 1)), c ∈ used := by
        intro c hc
        have := List.find?_eq_none.mp hf c hc
        simpa using this
      have hnodup : ((List.range (used.length + 1)).map
          (fun k => counterSlug base (k + 1))).Nodup := by
        refine List.Nodup.map ?_ (List.nodup_range _)
        intro k1 k2 hk
        exact counterSlug_inj base k1 k2 hk
      have hsub : ((List.range (used.length + 1)).map
          (fun k => counterSlug base (k + 1))).toFinset ⊆ used.toFinset := by
        intro x hx
        rw [List.mem_toFinset] at hx ⊢
        exact hall x (List.mem_toFinset.mp (List.mem_toFinset.mpr hx))
      have hcard1 : ((List.range (used.length + 1)).map
          (fun k => counterSlug base (k + 1))).toFinset.card =
          used.length + 1 := by
        rw [List.toFinset_card_of_nodup hnodup]
        simp
      have hcard2 := Finset.card_le_card hsub
      have hcard3 : used.toFinset.card ≤ used.length :=
        used.toFinset_card_le
      omega
  · rw [if_neg hb]
    exact hb

theorem renderHeading_used (pfx : String) (used : List String) (lvl : Nat)
    (t : String) :
    ((renderHeading pfx used lvl t).1.idGenerated = true ∧
      (renderHeading pfx used lvl t).1.idAttr ∉ used ∧
      (renderHeading pfx used lvl t).2 =
        (renderHeading pfx used lvl t).1.idAttr :: used) ∨
    ((renderHeading pfx used lvl t).1.idGenerated = false ∧
      (renderHeading pfx used lvl t).2 = used) := by
  unfold renderHeading
  rcases hcb : consumeLeadingAttrBlock t.data with ⟨ab, content⟩
  cases hid : ab.idAttr with
  | some i =>
    right
    simp only [hid]
    simp
  | none =>
    left
    refine ⟨by simp [hid], ?_, by simp [hid]⟩
    simp only [hid]
    exact freshSlug_not_mem used (slugify (String.mk content))

theorem renderHeadingsAux_fresh (pfx : String) :
    ∀ (ts : List (Nat × String)) (used : List String),
      (∀ h ∈ renderHeadingsAux pfx used ts,
        h.idGenerated = true → h.idAttr ∉ used) ∧
      (((renderHeadingsAux pfx used ts).filter
          (fun h => h.idGenerated)).map (fun h => h.idAttr)).Nodup := by
  intro ts
  induction ts with
  | nil =>
    intro used
    constructor
    · intro h hmem
      simp [renderHeadingsAux] at hmem
    · simp [renderHeadingsAux]
  | cons p ts ih =>
    intro used
    obtain ⟨lvl, t⟩ := p
    have hstep : renderHeadingsAux pfx used ((lvl, t) :: ts) =
        (renderHeading pfx used lvl t).1 ::
          renderHeadingsAux pfx (renderHeading pfx used lvl t).2 ts := by
      simp [renderHeadingsAux]
    rcases renderHeading_used pfx used lvl t with
      ⟨hgen, hnm, hu2⟩ | ⟨hgen, hu2⟩
    · rcases ih ((renderHeading pfx used lvl t).1.idAttr :: used) with
        ⟨ih1, ih2⟩
      rw [← hu2] at ih1 ih2
      constructor
      · intro h hmem hg
        rw [hstep] at hmem
        rcases List.mem_cons.mp hmem with rfl | hmem2
        · exact hnm
        · have := ih1 h hmem2 hg
          rw [hu2] at this
          intro hin
          exact this (List.mem_cons_of_mem _ hin)
      · rw [hstep]
        rw [List.filter_cons_of_pos (by simpa using hgen)]
        simp only [List.map_cons]
        rw [List.nodup_cons]
        refine ⟨?_, ih2⟩
        intro hin
        rcases List.mem_map.mp hin with ⟨h2, hmem2, heq⟩
        have hg2 : h2.idGenerated = true := by
          have := List.mem_filter.mp hmem2
          simpa using this.2
        have := ih1 h2 (List.mem_filter.mp hmem2).1 hg2
        rw [hu2] at this
        rw [heq] at this
        exact this (List.mem_cons_self _ _)
    · rcases ih used with ⟨ih1, ih2⟩
      rw [← hu2] at ih1 ih2
      constructor
      · intro h hmem hg
        rw [hstep] at hmem
        rcases List.mem_cons.mp hmem with rfl | hmem2
        · rw [hg] at hgen
          exact absurd hgen (by decide)
        · have := ih1 h hmem2 hg
          rw [hu2] at this
          exact this
      · rw [hstep]
        rw [List.filter_cons_of_neg (by simpa using hgen)]
        exact ih2

/-- Claim C4: the heading renderer always appends the generated anchor
link after the heading text; the heading id is the slug of the text
(lowercased, tags stripped, non-alphanumeric runs collapsed to single
hyphens, trimmed) when no id is declared and there is no collision; two
headings with identical text receive distinct ids, the second getting a
numeric counter suffix; and every heading-generated slug is unique within
one compiled document. -/
theorem heading_slug_spec (pfx : String) (used : List String) (lvl : Nat)
    (text : String) (ts : List (Nat × String))
    (hplain : parseAttrs text.data = none) (hfresh : slugify text ∉ used) :
    (∀ t2 : String, (renderHeading pfx used lvl t2).1.innerHtml =
      (consumeLeadingAttrBlock t2.data).2 ++
        (headingAnchorHtml pfx (renderHeading pfx used lvl t2).1.idAttr).data) ∧
    (renderHeading pfx used lvl text).1.idAttr = slugify text ∧
    (((renderHeadings pfx ts).filter (fun h => h.idGenerated)).map
      (fun h => h.idAttr)).Nodup ∧
    (renderHeadings "bmd-" [(1, "A"), (1, "A")]).map (fun h => h.idAttr) =
      ["a", "a-1"] ∧
    ("a" : String) ≠ "a-1" := by
  refine ⟨?_, ?_, (renderHeadingsAux_fresh pfx ts []).2, by decide, by decide⟩
  · intro t2
    unfold renderHeading
    rcases consumeLeadingAttrBlock t2.data with ⟨ab, content⟩
    cases hid : ab.idAttr with
    | some i => simp [hid]
    | none => simp [hid]
  · unfold renderHeading
    simp only [consumeLeadingAttrBlock, hplain]
    show freshSlug used (slugify (String.mk text.data)) = slugify text
    have hmk : String.mk text.data = text := rfl
    rw [hmk]
    unfold freshSlug
    rw [if_neg hfresh]

/-- Witness for `heading_slug_spec` at a concrete heading. -/
theorem heading_slug_spec_witness :
    (renderHeading "bmd-" [] 1 "Hello World").1.idAttr =
      slugify "Hello World" :=
  (heading_slug_spec "bmd-" [] 1 "Hello World" [] (by decide) (by decide)).2.1

/-! ## Claim theorems: required text input field (C5) -/

theorem isIdentChar_props (c : Char) (h : isIdentChar c = true) :
    c.isWhitespace = false ∧ (c == '*') = false := by
  constructor
  · by_contra hw
    rw [Bool.not_eq_false] at hw
    have hc : ((c = ' ' ∨ c = '\t') ∨ c = '\r') ∨ c = '\n' := by
      simpa [Char.isWhitespace] using hw
    rcases hc with ((rfl | rfl) | rfl) | rfl <;> exact absurd h (by decide)
  · by_contra hs
    rw [Bool.not_eq_false] at hs
    have hc : c = '*' := by simpa using hs
    subst hc
    exact absurd h (by decide)

theorem parseFieldFirstLine_shape (name : List Char) (hn0 : name ≠ [])
    (hn : ∀ c ∈ name, isIdentChar c = true) :
    parseFieldFirstLine (String.mk (name ++ "* = TextInput(".data)) =
      some (String.mk name, true, "textinput") := by
  cases name with
  | nil => exact absurd rfl hn0
  | cons nc nt =>
  have hnc := hn nc (List.mem_cons_self nc nt)
  have hncp := isIdentChar_props nc hnc
  simp only [parseFieldFirstLine]
  have htrim : trimLeftChars (nc :: nt ++
      ['*', ' ', '=', ' ', 'T', 'e', 'x', 't', 'I', 'n', 'p', 'u', 't', '(']) =
      nc :: nt ++
      ['*', ' ', '=', ' ', 'T', 'e', 'x', 't', 'I', 'n', 'p', 'u', 't', '('] := by
    simp [trimLeftChars, List.dropWhile_cons, hncp.1]
  have htake : List.takeWhile isIdentChar (nc :: nt ++
      ['*', ' ', '=', ' ', 'T', 'e', 'x', 't', 'I', 'n', 'p', 'u', 't', '(']) =
      nc :: nt := by
    have := takeWhile_append_stop isIdentChar (nc :: nt)
      [' ', '=', ' ', 'T', 'e', 'x', 't', 'I', 'n', 'p', 'u', 't', '('] '*'
      hn (by decide)
    simpa using this
  have hdrop : List.dropWhile isIdentChar (nc :: nt ++
      ['*', ' ', '=', ' ', 'T', 'e', 'x', 't', 'I', 'n', 'p', 'u', 't', '(']) =
      ['*', ' ', '=', ' ', 'T', 'e', 'x', 't', 'I', 'n', 'p', 'u', 't', '('] := by
    have := dropWhile_append_stop isIdentChar (nc :: nt)
      [' ', '=', ' ', 'T', 'e', 'x', 't', 'I', 'n', 'p', 'u', 't', '('] '*'
      hn (by decide)
    simpa using this
  rw [htrim, htake, hdrop]
  rfl

theorem dropWhile_append_singleton (p : Char → Bool) (xs : List Char)
    (y : Char) (hy : p y = false) :
    (xs ++ [y]).dropWhile p = xs.dropWhile p ++ [y] := by
  induction xs with
  | nil => simp [List.dropWhile_cons, hy]
  | cons a xs ih =>
    by_cases ha : p a = true
    · simp [List.dropWhile_cons, ha, ih]
    · simp [List.dropWhile_cons, ha]

theorem trimChars_cons_head (c : Char) (rest : List Char)
    (hc : c.isWhitespace = false) :
    trimChars (c :: rest) =
      c :: (rest.reverse.dropWhile (fun x => x.isWhitespace)).reverse := by
  unfold trimChars
  rw [List.dropWhile_cons, if_neg (by simp [hc])]
  rw [List.reverse_cons, dropWhile_append_singleton _ _ _ hc]
  simp

theorem trimChars_cons_ws (c : Char) (rest : List Char)
    (hc : c.isWhitespace = true) :
    trimChars (c :: rest) = trimChars rest := by
  unfold trimChars
  rw [List.dropWhile_cons, if_pos (by simp [hc])]

theorem parseOptionLine_question (Q : String)
    (hq1 : Q.data.dropWhile (fun c => c.isWhitespace) = Q.data)
    (hq2 : Q.data.reverse.dropWhile (fun c => c.isWhitespace) =
      Q.data.reverse) :
    parseOptionLine (String.mk ("	| question = ".data ++ Q.data)) =
      some ("question", some Q) := by
  simp only [parseOptionLine]
  have hv : trimChars (' ' :: Q.data) = Q.data := by
    rw [trimChars_cons_ws ' ' _ (by decide)]
    unfold trimChars
    rw [hq1, hq2]
    simp
  show some (String.mk (trimChars [' ', 'q', 'u', 'e', 's', 't', 'i', 'o', 'n', ' ']), some (String.mk (trimChars (' ' :: Q.data)))) = some ("question", some Q)
  rw [hv]
  rfl

theorem parseFieldDeclaration_textInput (name : List Char) (Q : String)
    (hn0 : name ≠ []) (hn : ∀ c ∈ name, isIdentChar c = true)
    (hq1 : Q.data.dropWhile (fun c => c.isWhitespace) = Q.data)
    (hq2 : Q.data.reverse.dropWhile (fun c => c.isWhitespace) =
      Q.data.reverse) :
    parseFieldDeclaration [String.mk (name ++ "* = TextInput(".data),
      String.mk ("	| question = ".data ++ Q.data), ")"] =
      some ⟨String.mk name, true, "textinput", [("question", Q)], []⟩ := by
  have hfirst := parseFieldFirstLine_shape name hn0 hn
  have hopt := parseOptionLine_question Q hq1 hq2
  have hnotclose : (trimChars (String.mk ("	| question = ".data ++
      Q.data)).data == [')']) = false := by
    rw [show (String.mk ("	| question = ".data ++ Q.data)).data =
      '	' :: ('|' :: ([' ', 'q', 'u', 'e', 's', 't', 'i', 'o', 'n', ' ', '=', ' '] ++ Q.data)) from rfl]
    rw [trimChars_cons_ws _ _ (by decide)]
    rw [trimChars_cons_head _ _ (by decide)]
    rfl
  simp only [parseFieldDeclaration, parseFieldBodyAux, hfirst, hopt,
    hnotclose, Bool.false_eq_true, if_false]
  rfl

/-- Claim C5: for every field declaration of the form
`name* = TextInput( | question = Q )`, parsing yields a required
text-input descriptor, and the rendered field marks the field required
with a visually hidden `(required)` suffix and a visible marker glyph,
the control's `name` attribute equals the field name, and the control's
id is the fixed transform `id_<name>`. -/
theorem textInput_required_field_spec (pfx : String) (ab : AttributeBlock)
    (name : List Char) (Q : String)
    (hn0 : name ≠ []) (hn : ∀ c ∈ name, isIdentChar c = true)
    (hq1 : Q.data.dropWhile (fun c => c.isWhitespace) = Q.data)
    (hq2 : Q.data.reverse.dropWhile (fun c => c.isWhitespace) =
      Q.data.reverse) :
    parseFieldDeclaration [String.mk (name ++ "* = TextInput(".data),
      String.mk ("	| question = ".data ++ Q.data), ")"] =
      some ⟨String.mk name, true, "textinput", [("question", Q)], []⟩ ∧
    (∀ d : FieldDescriptor, d.required = true →
      (renderTextInputField pfx ab d).requiredField = true ∧
      (renderTextInputField pfx ab d).visibleMarkerGlyph = true ∧
      (renderTextInputField pfx ab d).visuallyHiddenText =
        some (String.mk (lastWordChars
          (renderTextInputField pfx ab d).labelText.data) ++ " (required)") ∧
      (renderTextInputField pfx ab d).controlName = d.name ∧
      (renderTextInputField pfx ab d).controlId = "id_" ++ d.name) ∧
    (renderTextInputField pfx ab
      ⟨String.mk name, true, "textinput", [("question", Q)], []⟩).controlName =
      String.mk name ∧
    (renderTextInputField pfx ab
      ⟨String.mk name, true, "textinput", [("question", Q)], []⟩).controlId =
      "id_" ++ String.mk name ∧
    (renderTextInputField pfx ab
      ⟨String.mk name, true, "textinput", [("question", Q)], []⟩).visuallyHiddenText =
      some (String.mk (lastWordChars Q.data) ++ " (required)") ∧
    pfx ++ "form-field" ∈ (renderTextInputField pfx ab
      ⟨String.mk name, true, "textinput", [("question", Q)], []⟩).wrapperClasses := by
  refine ⟨parseFieldDeclaration_textInput name Q hn0 hn hq1 hq2, ?_, rfl,
    rfl, ?_, ?_⟩
  · intro d hreq
    refine ⟨?_, ?_, ?_, ?_, ?_⟩ <;> simp [renderTextInputField, hreq]
  · simp [renderTextInputField, fieldOpt]
  · simp [renderTextInputField]

/-- Witness for `textInput_required_field_spec` at a concrete declaration. -/
theorem textInput_required_field_spec_witness :
    parseFieldDeclaration [String.mk ("age".data ++ "* = TextInput(".data),
      String.mk ("	| question = ".data ++ "What is your age?".data), ")"] =
      some ⟨"age", true, "textinput",
        [("question", "What is your age?")], []⟩ :=
  (textInput_required_field_spec "bmd-" emptyAttributeBlock "age".data
    "What is your age?" (by decide) (by decide) (by decide) (by decide)).1
